import Mathlib

/-!
Shallow embedding of the court cause-list scraper (`courts.py`, `main.py`):
the row-reconstruction state machines of `Gauhati_court.clean_csv` and
`Allahabad_court.clean_csv`, the record parsing of `process_csv`, the
page-chunking of `main.process_pdf`, and the fetch-time watermark update of
`fetch_list`, together with theorems settling the specification claims.

String cells are modelled with executable primitives over `List Char`
mirroring the Python string operations used by the source (`strip`,
`isdigit`, substring containment, `upper`, `split(';')`), so that every
definition evaluates inside the kernel.
-/

namespace CourtScraper

/-- Python cell access `row[i]` on rows that the source either pads with
`""` or guards with `len(row) > i`; out-of-range reads yield `""`, which is
observationally equal to the guarded access in the source. -/
def pyGet (row : List String) (i : Nat) : String := row.getD i ""

/-- The whitespace class removed by Python `str.strip()`. -/
def isWS (c : Char) : Bool :=
  c == ' ' || c == '\t' || c == '\n' || c == '\r' || c == '\x0b' || c == '\x0c'

/-- Drop leading whitespace characters. -/
def dropWS : List Char → List Char
  | [] => []
  | c :: cs => if isWS c then dropWS cs else c :: cs

/-- Characters of a string with whitespace stripped from both ends. -/
def stripChars (l : List Char) : List Char :=
  (dropWS ((dropWS l).reverse)).reverse

/-- Python `s.strip()`. -/
def pyStrip (s : String) : String := ⟨stripChars s.data⟩

/-- Python `s.isdigit()` (restricted to ASCII digits, which is what the
scraped serial-number cells contain): non-empty and all digits. -/
def pyIsDigit (s : String) : Bool :=
  !s.data.isEmpty && s.data.all Char.isDigit

/-- Prefix test on character lists (needle, haystack). -/
def segPre : List Char → List Char → Bool
  | [], _ => true
  | _ :: _, [] => false
  | a :: as, b :: bs => a == b && segPre as bs

/-- Substring containment on character lists (needle, haystack). -/
def hasSubChars (needle hay : List Char) : Bool :=
  match hay with
  | [] => needle.isEmpty
  | _ :: t => segPre needle hay || hasSubChars needle t

/-- Python `needle in hay` for strings. -/
def hasSub (hay needle : String) : Bool := hasSubChars needle.data hay.data

/-- Python `s.upper()` (ASCII). -/
def pyUpper (s : String) : String := ⟨s.data.map Char.toUpper⟩

/-- Python `s.split(';')` on character lists: splits at every separator,
keeping empty segments. -/
def splitSemiChars : List Char → List (List Char)
  | [] => [[]]
  | x :: xs =>
    match splitSemiChars xs with
    | [] => [[x]]
    | r :: rs => if x == ';' then [] :: r :: rs else (x :: r) :: rs

/-- Python `s.split(';')`. -/
def pySplitSemi (s : String) : List String :=
  (splitSemiChars s.data).map (fun l => ⟨l⟩)

/-! ## Gauhati_court.clean_csv (courts.py lines 202-277): row reconstruction -/

/-- The fixed header row written by `Gauhati_court.clean_csv` (line 204). -/
def gauhatiHeaders : List String :=
  ["Sr.No.", "Case Number", "Main Parties", "Petitioner Advocate", "Respondent Advocate"]

/-- Start-row test of `Gauhati_court.clean_csv` line 216:
`row[0] and row[0].strip().isdigit()`. -/
def isStartRowG (row : List String) : Bool :=
  !(pyGet row 0).data.isEmpty && pyIsDigit (pyStrip (pyGet row 0))

/-- The record seeded from a start row (lines 220-233): five cells, the
optional cells taken when present and non-empty (`len(row) > k and row[k]`,
which is equivalent to `pyGet row k ≠ ""`). -/
def seedRecord (row : List String) : List String :=
  [pyStrip (pyGet row 0),
   pyStrip (pyGet row 1),
   if pyGet row 2 ≠ "" then pyStrip (pyGet row 2) else "",
   if pyGet row 3 ≠ "" then pyStrip (pyGet row 3) else "",
   if pyGet row 4 ≠ "" then pyStrip (pyGet row 4) else ""]

/-- The `if/elif` chain of lines 236-251 acting on the case-number and
parties cells of the open record; returns the new `(current[1], current[2])`. -/
def mergeParties (cur row : List String) : String × String :=
  if pyGet row 2 ≠ "" ∧ hasSub (pyGet row 2) "Versus" then (pyGet cur 1, pyGet cur 2)
  else if pyGet row 1 ≠ "" ∧ hasSub (pyGet row 1) "WITH" then (pyGet cur 1, pyGet cur 2)
  else if pyGet row 1 ≠ "" ∧ hasSub (pyGet row 1) "in " then
    ((if pyGet cur 1 ≠ "" then pyGet cur 1 ++ "; " ++ pyStrip (pyGet row 1) else pyGet cur 1),
     pyGet cur 2)
  else if pyGet row 2 ≠ "" then
    (pyGet cur 1,
     if pyGet cur 2 ≠ "" then
       (if hasSub (pyGet row 2) "THE " ∨ hasSub (pyUpper (pyGet cur 2)) "VERSUS" ∨
           hasSub (pyUpper (pyGet cur 2)) "VS" ∨ hasSub (pyUpper (pyGet cur 2)) "V." then
          pyGet cur 2 ++ " vs " ++ pyStrip (pyGet row 2)
        else pyGet cur 2 ++ " " ++ pyStrip (pyGet row 2))
     else pyStrip (pyGet row 2))
  else (pyGet cur 1, pyGet cur 2)

/-- Advocate-cell merge of lines 253-263:
`current[k] += "; " + cell` when already populated, else `current[k] = cell`. -/
def appendSemi (c x : String) : String :=
  if c ≠ "" then c ++ "; " ++ x else x

/-- Full continuation merge (lines 236-263) of one row into the open record. -/
def mergeCont (cur row : List String) : List String :=
  let p := mergeParties cur row
  [pyGet cur 0,
   p.1,
   p.2,
   if pyGet row 3 ≠ "" then appendSemi (pyGet cur 3) (pyStrip (pyGet row 3)) else pyGet cur 3,
   if pyGet row 4 ≠ "" then appendSemi (pyGet cur 4) (pyStrip (pyGet row 4)) else pyGet cur 4]

/-- Effect of a non-start row on the open record: rows whose first cell is
`""` are merged (line 235), rows with a non-empty non-numeric first cell
fall through both branches and are ignored. -/
def contEffect (cur row : List String) : List String :=
  if pyGet row 0 = "" then mergeCont cur row else cur

/-- State of the reconstruction loop: the emitted rows (`cleaned_data`,
already holding the header) and the open record (`current_case`). -/
structure GState where
  cleaned : List (List String)
  current : Option (List String)
deriving DecidableEq

/-- One iteration of the `while` loop (lines 213-265). `none` is the
exception path: `row[0]` on an empty row, or `row[1]` on a one-cell start
row, raises `IndexError`, making `clean_csv` return `False` with no output
written. -/
def gauhatiStep (st : GState) (row : List String) : Option GState :=
  match row with
  | [] => none
  | _ :: rest =>
    if isStartRowG row then
      if rest.isEmpty then none
      else some ⟨st.cleaned ++ st.current.toList, some (seedRecord row)⟩
    else
      match st.current with
      | none => some st
      | some cur => some ⟨st.cleaned, some (contEffect cur row)⟩

/-- The reconstruction loop over all rows. -/
def gauhatiRun : GState → List (List String) → Option GState
  | st, [] => some st
  | st, row :: rest =>
    match gauhatiStep st row with
    | none => none
    | some st' => gauhatiRun st' rest

/-- `Gauhati_court.clean_csv` on the parsed csv rows: the list of rows
written back to the file (header first, final open record flushed,
lines 267-272), or `none` on the exception path. -/
def gauhatiClean (data : List (List String)) : Option (List (List String)) :=
  match gauhatiRun ⟨[gauhatiHeaders], none⟩ data with
  | none => none
  | some st => some (st.cleaned ++ st.current.toList)

/-! ## Super_Class.process_csv (courts.py lines 131-146): record parsing and
notification -/

/-- One logical record as read back by `Super_Class.process_csv` from the
cleaned csv via `DictReader` keyed on the Gauhati header. -/
structure ParsedRecord where
  caseNumber : String
  mainParties : String
  petitionerAdvocates : List String
  respondentAdvocates : List String
deriving DecidableEq

/-- Field extraction of lines 137-140: empty cells become `""`/`[]`,
advocate cells are split on `';'`. -/
def parseRecord (row : List String) : ParsedRecord :=
  { caseNumber := pyGet row 1
    mainParties := pyGet row 2
    petitionerAdvocates := if pyGet row 3 ≠ "" then pySplitSemi (pyGet row 3) else []
    respondentAdvocates := if pyGet row 4 ≠ "" then pySplitSemi (pyGet row 4) else [] }

/-- Reconstruction followed by record parsing: the records `process_csv`
reads from the file written by `Gauhati_court.clean_csv` (the header row is
consumed by `DictReader`). -/
def gauhatiProcessed (data : List (List String)) : Option (List ParsedRecord) :=
  match gauhatiClean data with
  | none => none
  | some out => some ((out.drop 1).map parseRecord)

/-- A notification produced by `send_email` (courts.py lines 100-129),
modelled as structured data; message formatting and transport are external. -/
structure SentEmail where
  recipientName : String
  recipientAddr : String
  caseNumber : String
  petitioners : List String
  respondents : List String
  parties : String
deriving DecidableEq

/-- The per-row body of the `process_csv` loop (lines 136-144): extract the
fields, call `get_user_detail(case_number)` — unconditionally, also when the
cell is empty — and send one email per returned detail. `lookup` abstracts
the database query; the result pair records the lookups performed and the
emails sent. -/
def superRow (lookup : String → List (String × String)) (row : List String) :
    List String × List SentEmail :=
  let c := pyGet row 1
  let rec' := parseRecord row
  ([c],
   (lookup c).map (fun d =>
     { recipientName := d.1
       recipientAddr := d.2
       caseNumber := c
       petitioners := rec'.petitionerAdvocates
       respondents := rec'.respondentAdvocates
       parties := rec'.mainParties }))

/-- `Super_Class.process_csv` over the data rows of the cleaned csv
(the `DictReader` rows): lookups performed and emails sent, in row order. -/
def superProcessCsv (lookup : String → List (String × String))
    (records : List (List String)) : List String × List SentEmail :=
  ((records.map (fun r => (superRow lookup r).1)).flatten,
   (records.map (fun r => (superRow lookup r).2)).flatten)

/-! ## fetch_list (courts.py lines 150-199 and 280-373): watermark update

Both `fetch_list` implementations scan the court's list of cause-list dates
newest-first, download every list strictly newer than the stored
`last_list_date` and stop at the first one that is not newer; when at least
one list was downloaded, `last_list_date` is set to the newest listed date —
at fetch time, before any extraction or record processing runs. Dates are
modelled as naturals; `today` stands in for `date.today()`, used when the
stored watermark is NULL. -/

/-- `Gauhati_court.fetch_list` (lines 150-199): returns the new watermark
and the dates of the downloaded documents (empty list models the `None`
return). -/
def gauhatiFetch (today : Nat) (wm : Option Nat) (dates : List Nat) :
    Option Nat × List Nat :=
  let last := wm.getD today
  let pdfs := dates.takeWhile (fun d => decide (last < d))
  if pdfs.isEmpty then (wm, []) else (dates.head?, pdfs)

/-- `Allahabad_court.fetch_list` (lines 280-373): identical watermark
behaviour (lines 328, 354-359). -/
def allahabadFetch (today : Nat) (wm : Option Nat) (dates : List Nat) :
    Option Nat × List Nat :=
  let last := wm.getD today
  let pdfs := dates.takeWhile (fun d => decide (last < d))
  if pdfs.isEmpty then (wm, []) else (dates.head?, pdfs)

/-- Records produced for one document by `clean_csv` followed by
`process_csv`: the written rows minus the header; `0` when `clean_csv`
fails. -/
def gauhatiRecordCount (rows : List (List String)) : Nat :=
  match gauhatiClean rows with
  | none => 0
  | some out => out.length - 1

/-- One full Gauhati run as driven by `main.main`: `fetch_list` (which
performs the watermark update) followed by per-document processing, which
never touches the watermark. Returns the post-run watermark and the record
count of each downloaded document (`docRows` abstracts pdf extraction). -/
def gauhatiRunModel (today : Nat) (wm : Option Nat) (dates : List Nat)
    (docRows : Nat → List (List String)) : Option Nat × List Nat :=
  let fr := gauhatiFetch today wm dates
  (fr.1, fr.2.map (fun d => gauhatiRecordCount (docRows d)))

/-! ## main.process_pdf (main.py lines 37-47): page chunking -/

/-- Python `range(start, stop, step)` for a positive step. -/
def pythonRange (start stop step : Nat) : List Nat :=
  (List.range ((stop - start + step - 1) / step)).map (fun k => start + step * k)

/-- The page-range chunks of `process_pdf` (line 44):
`[f"{start}-{min(start + chunk_size - 1, num_pages)}" for start in
range(2, num_pages, chunk_size)]`, as inclusive `(first, last)` pairs. -/
def pageRanges (numPages chunkSize : Nat) : List (Nat × Nat) :=
  (pythonRange 2 numPages chunkSize).map
    (fun s => (s, min (s + chunkSize - 1) numPages))

/-! ## Allahabad_court.clean_csv (courts.py lines 376-442) -/

/-- Maximum row length, Python `max(len(row) for row in rows)` (evaluates
to `0` on an empty list, a case the source guards separately). -/
def maxLen (rows : List (List String)) : Nat :=
  rows.foldr (fun r m => max r.length m) 0

/-- Pad one row with empty cells to width `n` (line 387). -/
def padTo (n : Nat) (row : List String) : List String :=
  row ++ List.replicate (n - row.length) ""

/-- `padded_rows` of line 387: every row padded to the maximum width. -/
def padAll (rows : List (List String)) : List (List String) :=
  rows.map (padTo (maxLen rows))

/-- Start-row test of `Allahabad_court.clean_csv` line 393:
`if row[0].strip():` — any non-blank leading cell. -/
def allahabadIsStart (row : List String) : Bool :=
  decide (pyStrip (pyGet row 0) ≠ "")

/-- Cell-wise merge of a continuation row into the current row
(lines 401-407); both rows have been padded to the same width. -/
def mergeAllahabad : List String → List String → List String
  | [], _ => []
  | cur, [] => cur
  | c :: cs, r :: rs =>
    (if pyStrip r ≠ "" then
       (if pyStrip c ≠ "" then pyStrip c ++ " " ++ pyStrip r else pyStrip r)
     else c) :: mergeAllahabad cs rs

/-- One iteration of the merge loop (lines 392-407) on the state
`(merged_rows, current)`. Note the `current is None` branch: a leading
continuation row becomes the current row and is later emitted. -/
def allahabadStep (st : List (List String) × Option (List String))
    (row : List String) : List (List String) × Option (List String) :=
  if allahabadIsStart row then
    match st.2 with
    | some cur => (st.1 ++ [cur], some row)
    | none => (st.1, some row)
  else
    match st.2 with
    | none => (st.1, some row)
    | some cur => (st.1, some (mergeAllahabad cur row))

/-- `merged_rows` after the loop and the final flush (lines 389-409). -/
def allahabadMerge (rows : List (List String)) : List (List String) :=
  let st := rows.foldl allahabadStep ([], none)
  st.1 ++ st.2.toList

/-- Result of `Allahabad_court.clean_csv`: `emptyInput` models the early
`return pd.DataFrame()` on an empty csv (line 384), `failure` the exception
path returning `None` with nothing written, and `written` the csv written
back (header labels and data rows). -/
inductive AllahabadCleanResult where
  | emptyInput
  | failure
  | written (header : List Nat) (rows : List (List String))
deriving DecidableEq

/-- `Allahabad_court.clean_csv` (lines 376-442) on the parsed csv rows.
After merging: `dropna(axis=1, how='all')` is a no-op (no cell is null);
`df.loc[:, (df != '').any(axis=0)]` keeps the columns with some non-empty
cell; each row is then squashed to its non-blank cells, padded to the new
maximum width, truncated to the kept-column count when wider, renamed when
the widths agree; finally `drop(index=range(0,5))` removes the first five
rows — raising `KeyError` (hence `None`, nothing written) when fewer than
five merged rows exist. -/
def allahabadCleanCsv (rows : List (List String)) : AllahabadCleanResult :=
  if rows.isEmpty then .emptyInput else
  let padded := padAll rows
  let merged := allahabadMerge padded
  let width := maxLen padded
  let kept := (List.range width).filter (fun j => merged.any (fun r => pyGet r j ≠ ""))
  let dfRows := merged.map (fun r => kept.map (fun j => pyGet r j))
  let cleanedRows := dfRows.map (fun r => r.filter (fun v => pyStrip v ≠ ""))
  let m2 := maxLen cleanedRows
  let padded2 := cleanedRows.map (padTo m2)
  let truncated := if kept.length < m2 then padded2.map (List.take kept.length) else padded2
  let finalWidth := min m2 kept.length
  let header := if finalWidth = kept.length then kept else List.range finalWidth
  if merged.length < 5 then .failure
  else .written header (truncated.drop 5)

/-- Predicate used by the completeness proofs: the character list `s`
occurs inside some cell of an emitted row or of the open record. -/
def appearsIn (s : List Char) (st : GState) : Prop :=
  (∃ r ∈ st.cleaned, ∃ i, s <:+: (pyGet r i).data) ∨
  (∃ c, st.current = some c ∧ ∃ i, s <:+: (pyGet c i).data)

/-- Invariant of the output-shape proof: a record row has exactly five
cells and its leading cell is the trimmed, all-digit leading cell of some
start row of the input. -/
def recOkG (data : List (List String)) (r : List String) : Prop :=
  r.length = 5 ∧ pyIsDigit (pyGet r 0) = true ∧
  ∃ row ∈ data, isStartRowG row = true ∧ pyGet r 0 = pyStrip (pyGet row 0)

/-- State invariant of the output-shape proof: the emitted rows are the
header followed by well-shaped records, and the open record is well shaped. -/
def stOkG (data : List (List String)) (st : GState) : Prop :=
  (∃ recs, st.cleaned = gauhatiHeaders :: recs ∧ ∀ r ∈ recs, recOkG data r) ∧
  (∀ c, st.current = some c → recOkG data c)

/-! ## Claim theorems -/

/-- C1, counterexample: with stored watermark 3, one listed document of
date 5 whose extracted csv yields zero records, the post-run watermark is
still advanced to 5 — the claim says it should have stayed 3 so the
document is retried. -/
theorem claim1_counterexample :
    gauhatiRunModel 10 (some 3) [5] (fun _ => [["", "junk"]]) = (some 5, [0]) ∧
    (some 5 : Option Nat) ≠ some 3 := by decide

/-- C2, counterexample: the non-empty continuation cell `"XYZ"` in the
case-number column, containing neither `"WITH"` nor `"in "`, is silently
dropped — it occurs in no field of any output row. -/
theorem claim2_counterexample :
    gauhatiClean [["1", "A", "B", "C", "D"], ["", "XYZ", "", "", ""]] =
      some [gauhatiHeaders, ["1", "A", "B", "C", "D"]] ∧
    ([gauhatiHeaders, ["1", "A", "B", "C", "D"]]).all
      (fun r => r.all (fun f => !hasSub f "XYZ")) = true := by decide

/-- C3, counterexample: on the scenario input the parsed petitioner list of
record 1 is `["Adv1", " Adv2"]` — `split(';')` keeps the space of the
`"; "` separator — not `["Adv1", "Adv2"]` as claimed. -/
theorem claim3_counterexample :
    gauhatiProcessed [["1", "ABC/12/2024", "X Versus Y", "Adv1", ""],
                      ["", "", "", "Adv2", ""],
                      ["2", "DEF/13/2024", "P vs Q", "Adv3", "Adv4"]] ≠
      some [{ caseNumber := "ABC/12/2024", mainParties := "X Versus Y",
              petitionerAdvocates := ["Adv1", "Adv2"], respondentAdvocates := [] },
            { caseNumber := "DEF/13/2024", mainParties := "P vs Q",
              petitionerAdvocates := ["Adv3"], respondentAdvocates := ["Adv4"] }] := by
  decide

/-- C3, amended: the scenario yields exactly the two claimed records except
that the second petitioner entry of record 1 is `" Adv2"`, with the leading
space left by splitting `"Adv1; Adv2"` on `';'`. -/
theorem claim3_amended :
    gauhatiProcessed [["1", "ABC/12/2024", "X Versus Y", "Adv1", ""],
                      ["", "", "", "Adv2", ""],
                      ["2", "DEF/13/2024", "P vs Q", "Adv3", "Adv4"]] =
      some [{ caseNumber := "ABC/12/2024", mainParties := "X Versus Y",
              petitionerAdvocates := ["Adv1", " Adv2"], respondentAdvocates := [] },
            { caseNumber := "DEF/13/2024", mainParties := "P vs Q",
              petitionerAdvocates := ["Adv3"], respondentAdvocates := ["Adv4"] }] := by
  decide

/-- C4, counterexample: the Allahabad reconstructor classifies the row
`["abc", "x"]` — whose trimmed leading cell is non-empty but not numeric —
as a start row, emitting it as its own record instead of merging it into
the open record; the classification rule is not shared across sources. -/
theorem claim4_counterexample :
    allahabadIsStart ["abc", "x"] = true ∧
    pyIsDigit (pyStrip (pyGet ["abc", "x"] 0)) = false ∧
    isStartRowG ["abc", "x"] = false ∧
    allahabadMerge (padAll [["1", "y"], ["abc", "x"]]) = [["1", "y"], ["abc", "x"]] := by
  decide

/-- C5, counterexample: for a 52-page document the single generated chunk
is `2-51`; page 52 = N belongs to no chunk, so `[2, N]` is not covered. -/
theorem claim5_counterexample :
    pageRanges 52 50 = [(2, 51)] ∧
    (pageRanges 52 50).all (fun c => !(c.1 ≤ 52 && 52 ≤ c.2)) = true := by decide

/-- C7, counterexample: for a record whose case-number cell is empty, a
watcher lookup IS attempted (with the empty string) — the lookup trace is
`[""]`, not the empty trace the claim requires. -/
theorem claim7_counterexample :
    superProcessCsv (fun _ => []) [["1", "", "P", "", ""]] = ([""], []) ∧
    ([""] : List String) ≠ [] := by decide

/-- C8, counterexample: the Allahabad reconstructor does not ignore
pre-amble continuation rows: `["", "X"]` (first cell empty, no open record)
is installed as the current record, a second pre-amble row is merged into
it, and it is emitted as a record of the output. -/
theorem claim8_counterexample :
    allahabadIsStart ["", "X"] = false ∧
    allahabadMerge (padAll [["", "X"], ["1", "Y"]]) = [["", "X"], ["1", "Y"]] ∧
    allahabadMerge (padAll [["", "X"], ["", "Z"], ["1", "Y"]]) =
      [["", "X Z"], ["1", "Y"]] := by decide

/-- A string is distinct from `""` exactly when its character list is
non-empty. -/
theorem string_ne_empty_iff (s : String) : s ≠ "" ↔ s.data.isEmpty = false := by
  cases s with
  | mk l =>
    cases l with
    | nil => simp [String.ext_iff]
    | cons a t => simp [String.ext_iff]

/-- Stripping the empty string yields the empty string. -/
theorem pyStrip_of_empty (s : String) (h : s.data.isEmpty = true) : pyStrip s = "" := by
  cases s with
  | mk l =>
    cases l with
    | nil => rfl
    | cons a t => simp at h

/-- Watermark behaviour of the fetch model: either unchanged, or advanced
to some strictly newer date. -/
theorem fetch_watermark_cases (today : Nat) (wm : Option Nat) (dates : List Nat) :
    (gauhatiFetch today wm dates).1 = wm ∨
      ∃ d, (gauhatiFetch today wm dates).1 = some d ∧ wm.getD today < d := by
  unfold gauhatiFetch
  cases dates with
  | nil => exact Or.inl (by simp)
  | cons d ds =>
    by_cases h : wm.getD today < d
    · exact Or.inr ⟨d, by simp [List.takeWhile_cons, h], h⟩
    · exact Or.inl (by simp [List.takeWhile_cons, h])

/-- C1, amended: the post-run watermark is monotone (unchanged, or advanced
to a strictly newer listed date), but it equals the watermark set at fetch
time for every possible extraction result `docRows` — it advances whenever
at least one strictly newer document was downloaded, regardless of whether
processing produced any records, so a document yielding zero records is not
retried; the Allahabad fetch behaves identically. -/
theorem claim1_amended (today : Nat) (wm : Option Nat) (dates : List Nat)
    (docRows : Nat → List (List String)) :
    ((gauhatiRunModel today wm dates docRows).1 = wm ∨
      ∃ d, (gauhatiRunModel today wm dates docRows).1 = some d ∧ wm.getD today < d) ∧
    (gauhatiRunModel today wm dates docRows).1 = (gauhatiFetch today wm dates).1 ∧
    ((allahabadFetch today wm dates).1 = wm ∨
      ∃ d, (allahabadFetch today wm dates).1 = some d ∧ wm.getD today < d) := by
  refine ⟨?_, rfl, ?_⟩
  · exact fetch_watermark_cases today wm dates
  · have h : allahabadFetch = gauhatiFetch := rfl
    rw [h]
    exact fetch_watermark_cases today wm dates

/-- C4, amended: the Gauhati reconstructor classifies a row as a start row
exactly when its trimmed leading cell is a non-empty all-digit token; the
Allahabad reconstructor classifies a row as a start row exactly when its
trimmed leading cell is non-empty, numeric or not — the rule is not shared
across sources. -/
theorem claim4_amended (row : List String) :
    (isStartRowG row = true ↔
      pyStrip (pyGet row 0) ≠ "" ∧ (pyStrip (pyGet row 0)).data.all Char.isDigit = true) ∧
    (allahabadIsStart row = true ↔ pyStrip (pyGet row 0) ≠ "") := by
  constructor
  · unfold isStartRowG pyIsDigit
    rw [Bool.and_eq_true, Bool.and_eq_true]
    constructor
    · rintro ⟨h1, h2, h3⟩
      rw [string_ne_empty_iff]
      simp only [Bool.not_eq_true'] at h2
      exact ⟨h2, h3⟩
    · rintro ⟨h1, h2⟩
      rw [string_ne_empty_iff] at h1
      refine ⟨?_, by simp [h1], h2⟩
      simp only [Bool.not_eq_true']
      by_contra hc
      simp only [Bool.not_eq_false] at hc
      rw [pyStrip_of_empty _ hc] at h1
      simp at h1
  · unfold allahabadIsStart
    simp

/-- C7, amended: a watcher lookup is attempted for every record — the
lookup trace is exactly the list of case-number cells, including empty
ones — but when the lookup returns no watchers for a case number, no
notification carrying that case number is sent, and processing of the
other records continues unaffected. -/
theorem claim7_amended (lookup : String → List (String × String))
    (records : List (List String)) (c : String) (h : lookup c = []) :
    (superProcessCsv lookup records).1 = records.map (fun r => pyGet r 1) ∧
    ∀ e ∈ (superProcessCsv lookup records).2, e.caseNumber ≠ c := by
  constructor
  · induction records with
    | nil => rfl
    | cons r rs ih =>
      simp only [superProcessCsv, List.map_cons, List.flatten_cons] at ih ⊢
      rw [ih]
      rfl
  · intro e he
    simp only [superProcessCsv] at he
    rw [List.mem_flatten] at he
    obtain ⟨l, hl, hel⟩ := he
    rw [List.mem_map] at hl
    obtain ⟨r, hr, rfl⟩ := hl
    simp only [superRow] at hel
    rw [List.mem_map] at hel
    obtain ⟨d, hd, rfl⟩ := hel
    intro hcc
    simp only at hcc
    rw [hcc, h] at hd
    exact absurd hd (List.not_mem_nil d)

/-- C7, witness: instantiation at a concrete empty-case record. -/
theorem claim7_witness :
    (superProcessCsv (fun _ => []) [["1", "", "P", "", ""]]).1 =
      [["1", "", "P", "", ""]].map (fun r => pyGet r 1) ∧
    ∀ e ∈ (superProcessCsv (fun _ => ([] : List (String × String)))
      [["1", "", "P", "", ""]]).2, e.caseNumber ≠ "" :=
  claim7_amended (fun _ => []) [["1", "", "P", "", ""]] "" rfl

/-- C8, amended: the Gauhati reconstructor leaves its state exactly
unchanged on a continuation row met with no open record, so such pre-amble
content never reaches any record; the Allahabad reconstructor instead
installs the pre-amble row as the open record, which is later emitted. -/
theorem claim8_amended (cl acc : List (List String)) (row : List String)
    (hrow : isStartRowG row = false) (hne : row ≠ [])
    (hA : allahabadIsStart row = false) :
    gauhatiStep ⟨cl, none⟩ row = some ⟨cl, none⟩ ∧
    allahabadStep (acc, none) row = (acc, some row) := by
  constructor
  · cases row with
    | nil => exact absurd rfl hne
    | cons a rest => simp [gauhatiStep, hrow]
  · simp [allahabadStep, hA]

/-- C8, witness: instantiation at a concrete pre-amble row. -/
theorem claim8_witness :
    gauhatiStep ⟨[], none⟩ ["", "X"] = some ⟨[], none⟩ ∧
    allahabadStep ([], none) ["", "X"] = ([], some ["", "X"]) :=
  claim8_amended [] [] ["", "X"] (by decide) (by decide) (by decide)

/-- C9: `Allahabad_court.clean_csv` unconditionally drops the first five
merged rows; when fewer than five merged rows exist the `drop` raises and
`clean_csv` returns `None` with nothing written, otherwise the written data
rows are the merged rows beyond the first five. -/
theorem claim9_drop5 (rows : List (List String)) (hne : rows ≠ []) :
    ((allahabadMerge (padAll rows)).length < 5 → allahabadCleanCsv rows = .failure) ∧
    (5 ≤ (allahabadMerge (padAll rows)).length →
      ∃ hdr outRows, allahabadCleanCsv rows = .written hdr outRows ∧
        outRows.length = (allahabadMerge (padAll rows)).length - 5) := by
  have hEmpty : rows.isEmpty = false := by
    cases rows with
    | nil => exact absurd rfl hne
    | cons r rs => rfl
  constructor
  · intro h
    simp only [allahabadCleanCsv, hEmpty, Bool.false_eq_true, if_false]
    rw [if_pos h]
  · intro h
    simp only [allahabadCleanCsv, hEmpty, Bool.false_eq_true, if_false]
    rw [if_neg (by omega)]
    refine ⟨_, _, rfl, ?_⟩
    split
    · simp [List.length_drop, List.length_map]
    · simp [List.length_drop, List.length_map]

/-- C9, witness: a single-record input merges to one row, so `clean_csv`
fails. -/
theorem claim9_witness : allahabadCleanCsv [["1", "a"]] = .failure :=
  (claim9_drop5 [["1", "a"]] (by decide)).1 (by decide)

/-- Characterization of membership in the default-size chunk list. -/
theorem mem_pageRanges_iff (N a b : Nat) :
    (a, b) ∈ pageRanges N 50 ↔
      ∃ k, k < (N + 47) / 50 ∧ a = 2 + 50 * k ∧ b = min (a + 49) N := by
  unfold pageRanges pythonRange
  rw [List.map_map]
  simp only [List.mem_map, List.mem_range, Function.comp_apply, Prod.mk.injEq]
  constructor
  · rintro ⟨k, hk, h1, h2⟩
    refine ⟨k, by omega, h1.symm, ?_⟩
    rw [← h2, ← h1]
    congr 1
  · rintro ⟨k, hk, h1, h2⟩
    refine ⟨k, by omega, ?_⟩
    refine ⟨h1.symm, ?_⟩
    rw [h2, h1]
    congr 1

/-- C5, amended: for a document with `N ≥ 2` pages the chunks generated by
`process_pdf` partition the page interval `[2, L]`, where `L = N - 1` when
`N ≡ 2 (mod 50)` (the final page is dropped by the exclusive `range` stop)
and `L = N` otherwise; page 1 belongs to no chunk and every chunk spans at
most 50 pages. -/
theorem claim5_amended (N : Nat) (h2 : 2 ≤ N) :
    (∀ p, 2 ≤ p → p ≤ (if (N - 2) % 50 = 0 then N - 1 else N) →
      ∃! c : Nat × Nat, c ∈ pageRanges N 50 ∧ c.1 ≤ p ∧ p ≤ c.2) ∧
    (∀ c ∈ pageRanges N 50, ¬(c.1 ≤ 1 ∧ 1 ≤ c.2) ∧ c.2 + 1 - c.1 ≤ 50) := by
  constructor
  · intro p hp2 hpL
    have hpN : p ≤ N ∧ ((N - 2) % 50 = 0 → p ≤ N - 1) := by
      by_cases hN : (N - 2) % 50 = 0
      · rw [if_pos hN] at hpL
        omega
      · rw [if_neg hN] at hpL
        omega
    obtain ⟨hpN1, hpN2⟩ := hpN
    refine ⟨(2 + 50 * ((p - 2) / 50), min (2 + 50 * ((p - 2) / 50) + 49) N),
      ⟨?_, ?_, ?_⟩, ?_⟩
    · rw [mem_pageRanges_iff]
      exact ⟨(p - 2) / 50, by omega, rfl, rfl⟩
    · omega
    · rw [Nat.le_min]
      omega
    · rintro ⟨a, b⟩ ⟨hm, hab1, hab2⟩
      rw [mem_pageRanges_iff] at hm
      obtain ⟨k, hk, ha, hb⟩ := hm
      have hbb : b ≤ a + 49 := by
        rw [hb]
        exact Nat.min_le_left _ _
      have hkk : k = (p - 2) / 50 := by omega
      subst hkk
      subst ha
      subst hb
      rfl
  · intro c hc
    obtain ⟨a, b⟩ := c
    rw [mem_pageRanges_iff] at hc
    obtain ⟨k, hk, ha, hb⟩ := hc
    have hbb : b ≤ a + 49 := by
      rw [hb]
      exact Nat.min_le_left _ _
    constructor
    · omega
    · omega

/-- C5, witness: for a 100-page document, page 77 lies in exactly one
chunk. -/
theorem claim5_witness :
    ∃! c : Nat × Nat, c ∈ pageRanges 100 50 ∧ c.1 ≤ 77 ∧ 77 ≤ c.2 :=
  (claim5_amended 100 (by decide)).1 77 (by decide) (by decide)

/-- Character data of a string concatenation. -/
theorem string_data_append (s t : String) : (s ++ t).data = s.data ++ t.data := by
  cases s
  cases t
  rfl

/-- A string's characters occur in any right-extension of it. -/
theorem dataSubAppendLeft (a b : String) : a.data <:+: (a ++ b).data := by
  rw [string_data_append]
  exact (List.prefix_append _ _).isInfix

/-- A string's characters occur in any left-extension of it. -/
theorem dataSubAppendRight (a b : String) : b.data <:+: (a ++ b).data := by
  rw [string_data_append]
  exact (List.suffix_append _ _).isInfix

/-- A string's characters occur after appending a separator and a suffix. -/
theorem dataSubAppend2 (a s x : String) : a.data <:+: (a ++ s ++ x).data :=
  (dataSubAppendLeft a s).trans (dataSubAppendLeft (a ++ s) x)

/-- The old cell content survives an advocate-cell merge. -/
theorem appendSemi_self_occurs (c x : String) : c.data <:+: (appendSemi c x).data := by
  unfold appendSemi
  split
  · exact dataSubAppend2 c "; " x
  · rename_i h
    rw [not_ne_iff.mp h]
    exact List.nil_infix

/-- The merged-in cell content occurs in an advocate-cell merge. -/
theorem appendSemi_arg_occurs (c x : String) : x.data <:+: (appendSemi c x).data := by
  unfold appendSemi
  split
  · exact dataSubAppendRight (c ++ "; ") x
  · exact List.infix_refl _

/-- The old case-number cell survives the parties/case-number merge chain. -/
theorem mergeParties_fst_occurs (cur row : List String) :
    (pyGet cur 1).data <:+: ((mergeParties cur row).1).data := by
  unfold mergeParties
  split
  · exact List.infix_refl _
  · split
    · exact List.infix_refl _
    · split
      · split
        · exact dataSubAppend2 _ "; " _
        · exact List.infix_refl _
      · split
        · exact List.infix_refl _
        · exact List.infix_refl _

/-- The old parties cell survives the parties/case-number merge chain. -/
theorem mergeParties_snd_occurs (cur row : List String) :
    (pyGet cur 2).data <:+: ((mergeParties cur row).2).data := by
  unfold mergeParties
  split
  · exact List.infix_refl _
  · split
    · exact List.infix_refl _
    · split
      · exact List.infix_refl _
      · split
        · split
          · split
            · exact dataSubAppend2 _ " vs " _
            · exact dataSubAppend2 _ " " _
          · rename_i h
            rw [not_ne_iff.mp h]
            exact List.nil_infix
        · exact List.infix_refl _

/-- Every cell of the open record survives a continuation merge. -/
theorem mergeCont_field_occurs (cur row : List String) (i : Nat) (hi : i < 5) :
    (pyGet cur i).data <:+: (pyGet (mergeCont cur row) i).data := by
  interval_cases i
  · exact List.infix_refl _
  · exact mergeParties_fst_occurs cur row
  · exact mergeParties_snd_occurs cur row
  · show (pyGet cur 3).data <:+:
      (if pyGet row 3 ≠ "" then appendSemi (pyGet cur 3) (pyStrip (pyGet row 3))
       else pyGet cur 3).data
    split
    · exact appendSemi_self_occurs _ _
    · exact List.infix_refl _
  · show (pyGet cur 4).data <:+:
      (if pyGet row 4 ≠ "" then appendSemi (pyGet cur 4) (pyStrip (pyGet row 4))
       else pyGet cur 4).data
    split
    · exact appendSemi_self_occurs _ _
    · exact List.infix_refl _

/-- Every cell of the open record survives a non-start row. -/
theorem contEffect_field_occurs (cur row : List String) (i : Nat) (hi : i < 5) :
    (pyGet cur i).data <:+: (pyGet (contEffect cur row) i).data := by
  unfold contEffect
  split
  · exact mergeCont_field_occurs cur row i hi
  · exact List.infix_refl _

/-- Splitting the reconstruction loop at a list append. -/
theorem gauhatiRun_append (st : GState) (xs ys : List (List String)) :
    gauhatiRun st (xs ++ ys) =
      match gauhatiRun st xs with
      | none => none
      | some st1 => gauhatiRun st1 ys := by
  induction xs generalizing st with
  | nil => rfl
  | cons x xs ih =>
    simp only [List.cons_append, gauhatiRun]
    cases gauhatiStep st x with
    | none => rfl
    | some st' => exact ih st'

/-- Running the loop over non-start rows only folds `contEffect` over the
open record; nothing is emitted and the record stays open. -/
theorem gauhatiRun_conts (conts : List (List String)) (cl : List (List String))
    (cur : List String) (stF : GState)
    (hc : ∀ c ∈ conts, isStartRowG c = false)
    (h : gauhatiRun ⟨cl, some cur⟩ conts = some stF) :
    stF = ⟨cl, some (conts.foldl contEffect cur)⟩ := by
  induction conts generalizing cur with
  | nil =>
    simp only [gauhatiRun] at h
    injection h with h
    rw [← h]
    rfl
  | cons c cs ih =>
    cases c with
    | nil => simp [gauhatiRun, gauhatiStep] at h
    | cons a rest =>
      have hcs : isStartRowG (a :: rest) = false := hc _ (List.mem_cons_self _ _)
      simp only [gauhatiRun, gauhatiStep, hcs, Bool.false_eq_true, if_false] at h
      rw [List.foldl_cons]
      exact ih _ (fun c' hc' => hc _ (List.mem_cons_of_mem _ hc')) h

/-- C6: an input ending in a start row followed only by continuation rows
still emits the open record — it is the last row of the written output,
namely the seeded record with every trailing continuation merged in. -/
theorem claim6_flush (pre conts : List (List String)) (r : List String)
    (out : List (List String))
    (hr : isStartRowG r = true)
    (hc : ∀ c ∈ conts, isStartRowG c = false)
    (hout : gauhatiClean (pre ++ r :: conts) = some out) :
    out.getLast? = some (conts.foldl contEffect (seedRecord r)) := by
  unfold gauhatiClean at hout
  cases hrun : gauhatiRun ⟨[gauhatiHeaders], none⟩ (pre ++ r :: conts) with
  | none =>
    rw [hrun] at hout
    exact absurd hout (by simp)
  | some stF =>
    rw [hrun] at hout
    injection hout with hout
    rw [gauhatiRun_append] at hrun
    cases hpre : gauhatiRun ⟨[gauhatiHeaders], none⟩ pre with
    | none =>
      rw [hpre] at hrun
      exact absurd hrun (by simp)
    | some st1 =>
      rw [hpre] at hrun
      cases r with
      | nil => simp [isStartRowG, pyGet] at hr
      | cons a rest =>
        cases rest with
        | nil =>
          simp only [gauhatiRun, gauhatiStep, hr, if_true, List.isEmpty_nil] at hrun
          exact absurd hrun (by simp)
        | cons b rest2 =>
          simp only [gauhatiRun, gauhatiStep, hr, if_true, List.isEmpty_cons,
            Bool.false_eq_true, if_false] at hrun
          have hF := gauhatiRun_conts conts _ _ stF hc hrun
          rw [hF] at hout
          rw [← hout]
          simp only [Option.toList_some]
          exact List.getLast?_concat _

/-- C6, witness: a trailing start row with one continuation row is emitted
with the continuation merged in. -/
theorem claim6_witness :
    ([gauhatiHeaders, ["1", "A", "", "B; C", ""]] : List (List String)).getLast? =
      some ([["", "", "", "C", ""]].foldl contEffect (seedRecord ["1", "A", "", "B", ""])) :=
  claim6_flush [] [["", "", "", "C", ""]] ["1", "A", "", "B", ""]
    [gauhatiHeaders, ["1", "A", "", "B; C", ""]]
    (by decide) (by decide) (by decide)

/-- A seeded record is well shaped. -/
theorem seedRecord_recOk (data : List (List String)) (row : List String)
    (hmem : row ∈ data) (hr : isStartRowG row = true) :
    recOkG data (seedRecord row) := by
  refine ⟨rfl, ?_, row, hmem, hr, rfl⟩
  unfold isStartRowG at hr
  rw [Bool.and_eq_true] at hr
  exact hr.2

/-- A continuation merge preserves record shape: the width stays five and
the leading cell is untouched. -/
theorem mergeCont_recOk (data : List (List String)) (c row : List String)
    (h : recOkG data c) : recOkG data (mergeCont c row) := by
  obtain ⟨hlen, hdig, w, hw, hws, hwe⟩ := h
  exact ⟨rfl, hdig, w, hw, hws, hwe⟩

/-- One loop iteration preserves the output-shape invariant. -/
theorem step_stOk (data : List (List String)) (st st' : GState) (row : List String)
    (hmem : row ∈ data) (hstep : gauhatiStep st row = some st')
    (hst : stOkG data st) : stOkG data st' := by
  obtain ⟨⟨recs, hcl, hrecs⟩, hcur⟩ := hst
  cases row with
  | nil => simp [gauhatiStep] at hstep
  | cons a rest =>
    by_cases hs : isStartRowG (a :: rest) = true
    · cases rest with
      | nil => simp [gauhatiStep, hs] at hstep
      | cons b rest2 =>
        simp only [gauhatiStep, hs, if_true, List.isEmpty_cons, Bool.false_eq_true,
          if_false] at hstep
        injection hstep with hstep
        rw [← hstep]
        constructor
        · refine ⟨recs ++ st.current.toList, ?_, ?_⟩
          · rw [hcl]
            rfl
          · intro r hr
            rcases List.mem_append.mp hr with h1 | h2
            · exact hrecs r h1
            · cases hcv : st.current with
              | none =>
                rw [hcv] at h2
                simp at h2
              | some c =>
                rw [hcv] at h2
                simp only [Option.toList_some, List.mem_singleton] at h2
                rw [h2]
                exact hcur c hcv
        · intro c hc
          injection hc with hc
          rw [← hc]
          exact seedRecord_recOk data _ hmem hs
    · rw [Bool.not_eq_true] at hs
      cases hcv : st.current with
      | none =>
        simp only [gauhatiStep, hs, Bool.false_eq_true, if_false, hcv] at hstep
        injection hstep with hstep
        rw [← hstep]
        exact ⟨⟨recs, hcl, hrecs⟩, hcur⟩
      | some cur =>
        simp only [gauhatiStep, hs, Bool.false_eq_true, if_false, hcv] at hstep
        injection hstep with hstep
        rw [← hstep]
        refine ⟨⟨recs, hcl, hrecs⟩, ?_⟩
        intro c hc
        injection hc with hc
        rw [← hc]
        unfold contEffect
        split
        · exact mergeCont_recOk data cur _ (hcur cur hcv)
        · exact hcur cur hcv

/-- The loop preserves the output-shape invariant. -/
theorem run_stOk (data ds : List (List String)) (st st' : GState)
    (hsub : ∀ r ∈ ds, r ∈ data) (h : gauhatiRun st ds = some st')
    (hst : stOkG data st) : stOkG data st' := by
  induction ds generalizing st with
  | nil =>
    simp only [gauhatiRun] at h
    injection h with h
    rw [← h]
    exact hst
  | cons d ds ih =>
    simp only [gauhatiRun] at h
    cases hstep : gauhatiStep st d with
    | none =>
      rw [hstep] at h
      exact absurd h (by simp)
    | some st1 =>
      rw [hstep] at h
      exact ih st1 (fun r hr => hsub r (List.mem_cons_of_mem _ hr)) h
        (step_stOk data st st1 d (hsub d (List.mem_cons_self _ _)) hstep hst)

/-- C10: whenever `Gauhati_court.clean_csv` writes output, the first row is
the fixed header and every further row has exactly five cells, its first
cell being the non-empty all-digit trimmed leading cell of some start row
of the input. -/
theorem claim10_shape (data out : List (List String))
    (hout : gauhatiClean data = some out) :
    ∃ recs, out = gauhatiHeaders :: recs ∧
      ∀ r ∈ recs, r.length = 5 ∧ pyIsDigit (pyGet r 0) = true ∧
        ∃ row ∈ data, isStartRowG row = true ∧ pyGet r 0 = pyStrip (pyGet row 0) := by
  unfold gauhatiClean at hout
  cases hrun : gauhatiRun ⟨[gauhatiHeaders], none⟩ data with
  | none =>
    rw [hrun] at hout
    exact absurd hout (by simp)
  | some stF =>
    rw [hrun] at hout
    injection hout with hout
    have hok : stOkG data stF := by
      refine run_stOk data data _ stF (fun r h => h) hrun ⟨⟨[], rfl, ?_⟩, ?_⟩
      · intro r hr
        exact absurd hr (List.not_mem_nil r)
      · intro c hc
        exact Option.noConfusion hc
    obtain ⟨⟨recs, hcl, hrecs⟩, hcur⟩ := hok
    refine ⟨recs ++ stF.current.toList, ?_, ?_⟩
    · rw [← hout, hcl]
      rfl
    · intro r hr
      rcases List.mem_append.mp hr with h1 | h2
      · exact hrecs r h1
      · cases hcv : stF.current with
        | none =>
          rw [hcv] at h2
          simp at h2
        | some c =>
          rw [hcv] at h2
          simp only [Option.toList_some, List.mem_singleton] at h2
          rw [h2]
          exact hcur c hcv

/-- C10, witness: instantiation at a concrete one-row input. -/
theorem claim10_witness :
    ∃ recs, [gauhatiHeaders, ["1", "A", "", "", ""]] = gauhatiHeaders :: recs ∧
      ∀ r ∈ recs, r.length = 5 ∧ pyIsDigit (pyGet r 0) = true ∧
        ∃ row ∈ [["1", "A"]], isStartRowG row = true ∧
          pyGet r 0 = pyStrip (pyGet row 0) :=
  claim10_shape [["1", "A"]] [gauhatiHeaders, ["1", "A", "", "", ""]] (by decide)

/-- The open record keeps exactly five cells across one loop iteration. -/
theorem step_len (st st' : GState) (row : List String)
    (hstep : gauhatiStep st row = some st')
    (hlen : ∀ c, st.current = some c → c.length = 5) :
    ∀ c, st'.current = some c → c.length = 5 := by
  cases row with
  | nil => simp [gauhatiStep] at hstep
  | cons a rest =>
    by_cases hs : isStartRowG (a :: rest) = true
    · cases rest with
      | nil => simp [gauhatiStep, hs] at hstep
      | cons b rest2 =>
        simp only [gauhatiStep, hs, if_true, List.isEmpty_cons, Bool.false_eq_true,
          if_false] at hstep
        injection hstep with hstep
        rw [← hstep]
        intro c hc
        injection hc with hc
        rw [← hc]
        rfl
    · rw [Bool.not_eq_true] at hs
      cases hcv : st.current with
      | none =>
        simp only [gauhatiStep, hs, Bool.false_eq_true, if_false, hcv] at hstep
        injection hstep with hstep
        rw [← hstep]
        exact hlen
      | some cur =>
        simp only [gauhatiStep, hs, Bool.false_eq_true, if_false, hcv] at hstep
        injection hstep with hstep
        rw [← hstep]
        intro c hc
        injection hc with hc
        rw [← hc]
        unfold contEffect
        split
        · rfl
        · exact hlen cur hcv

/-- The open record keeps exactly five cells across the whole loop. -/
theorem run_len (ds : List (List String)) (st st' : GState)
    (h : gauhatiRun st ds = some st')
    (hlen : ∀ c, st.current = some c → c.length = 5) :
    ∀ c, st'.current = some c → c.length = 5 := by
  induction ds generalizing st with
  | nil =>
    simp only [gauhatiRun] at h
    injection h with h
    rw [← h]
    exact hlen
  | cons d ds ih =>
    simp only [gauhatiRun] at h
    cases hstep : gauhatiStep st d with
    | none =>
      rw [hstep] at h
      exact absurd h (by simp)
    | some st1 =>
      rw [hstep] at h
      exact ih st1 h (step_len st st1 d hstep hlen)

/-- Cell content present in the state survives one loop iteration. -/
theorem step_appears (s : List Char) (st st' : GState) (row : List String)
    (hlen : ∀ c, st.current = some c → c.length = 5)
    (hstep : gauhatiStep st row = some st') (ha : appearsIn s st) :
    appearsIn s st' := by
  cases row with
  | nil => simp [gauhatiStep] at hstep
  | cons a rest =>
    by_cases hs : isStartRowG (a :: rest) = true
    · cases rest with
      | nil => simp [gauhatiStep, hs] at hstep
      | cons b rest2 =>
        simp only [gauhatiStep, hs, if_true, List.isEmpty_cons, Bool.false_eq_true,
          if_false] at hstep
        injection hstep with hstep
        rw [← hstep]
        rcases ha with ⟨r, hr, i, hi⟩ | ⟨c, hc, i, hi⟩
        · exact Or.inl ⟨r, List.mem_append_left _ hr, i, hi⟩
        · refine Or.inl ⟨c, List.mem_append_right _ ?_, i, hi⟩
          rw [hc]
          simp
    · rw [Bool.not_eq_true] at hs
      cases hcv : st.current with
      | none =>
        simp only [gauhatiStep, hs, Bool.false_eq_true, if_false, hcv] at hstep
        injection hstep with hstep
        rw [← hstep]
        exact ha
      | some cur =>
        simp only [gauhatiStep, hs, Bool.false_eq_true, if_false, hcv] at hstep
        injection hstep with hstep
        rw [← hstep]
        rcases ha with ⟨r, hr, i, hi⟩ | ⟨c, hc, i, hi⟩
        · exact Or.inl ⟨r, hr, i, hi⟩
        · rw [hcv] at hc
          injection hc with hc
          rw [← hc] at hi
          by_cases hi5 : i < 5
          · exact Or.inr ⟨contEffect cur (a :: rest), rfl, i,
              hi.trans (contEffect_field_occurs cur (a :: rest) i hi5)⟩
          · have hc5 : cur.length = 5 := hlen cur hcv
            have hval : pyGet cur i = "" := by
              unfold pyGet
              exact List.getD_eq_default _ _ (by omega)
            rw [hval, show ("" : String).data = [] from rfl] at hi
            have hs0 : s = [] := List.infix_nil.mp hi
            exact Or.inr ⟨contEffect cur (a :: rest), rfl, 0, hs0 ▸ List.nil_infix⟩

/-- Cell content present in the state survives the rest of the loop. -/
theorem run_appears (s : List Char) (ds : List (List String)) (st st' : GState)
    (h : gauhatiRun st ds = some st')
    (hlen : ∀ c, st.current = some c → c.length = 5)
    (ha : appearsIn s st) : appearsIn s st' := by
  induction ds generalizing st with
  | nil =>
    simp only [gauhatiRun] at h
    injection h with h
    rw [← h]
    exact ha
  | cons d ds ih =>
    simp only [gauhatiRun] at h
    cases hstep : gauhatiStep st d with
    | none =>
      rw [hstep] at h
      exact absurd h (by simp)
    | some st1 =>
      rw [hstep] at h
      exact ih st1 h (step_len st st1 d hstep hlen) (step_appears s st st1 d hlen hstep ha)

/-- A non-empty advocate cell of a start row, or of a continuation row met
with an open record, lands in the corresponding cell of the open record. -/
theorem step_insert (st st' : GState) (row : List String) (j : Nat)
    (hj : j = 3 ∨ j = 4) (hcell : pyGet row j ≠ "")
    (hstep : gauhatiStep st row = some st')
    (hcase : isStartRowG row = true ∨ (pyGet row 0 = "" ∧ st.current ≠ none)) :
    appearsIn (pyStrip (pyGet row j)).data st' := by
  cases row with
  | nil =>
    exfalso
    apply hcell
    rcases hj with rfl | rfl <;> rfl
  | cons a rest =>
    rcases hcase with hs | ⟨h0, hcur⟩
    · cases rest with
      | nil => simp [gauhatiStep, hs] at hstep
      | cons b rest2 =>
        simp only [gauhatiStep, hs, if_true, List.isEmpty_cons, Bool.false_eq_true,
          if_false] at hstep
        injection hstep with hstep
        rw [← hstep]
        refine Or.inr ⟨seedRecord (a :: b :: rest2), rfl, j, ?_⟩
        rcases hj with rfl | rfl
        · rw [show pyGet (seedRecord (a :: b :: rest2)) 3 =
            (if pyGet (a :: b :: rest2) 3 ≠ "" then pyStrip (pyGet (a :: b :: rest2) 3)
             else "") from rfl, if_pos hcell]
        · rw [show pyGet (seedRecord (a :: b :: rest2)) 4 =
            (if pyGet (a :: b :: rest2) 4 ≠ "" then pyStrip (pyGet (a :: b :: rest2) 4)
             else "") from rfl, if_pos hcell]
    · have hsF : isStartRowG (a :: rest) = false := by
        unfold isStartRowG
        rw [h0]
        decide
      cases hcv : st.current with
      | none => exact absurd hcv hcur
      | some cur =>
        simp only [gauhatiStep, hsF, Bool.false_eq_true, if_false, hcv] at hstep
        injection hstep with hstep
        rw [← hstep]
        refine Or.inr ⟨contEffect cur (a :: rest), rfl, j, ?_⟩
        rw [show contEffect cur (a :: rest) =
          (if pyGet (a :: rest) 0 = "" then mergeCont cur (a :: rest) else cur) from rfl,
          if_pos h0]
        rcases hj with rfl | rfl
        · rw [show pyGet (mergeCont cur (a :: rest)) 3 =
            (if pyGet (a :: rest) 3 ≠ "" then
              appendSemi (pyGet cur 3) (pyStrip (pyGet (a :: rest) 3))
             else pyGet cur 3) from rfl, if_pos hcell]
          exact appendSemi_arg_occurs _ _
        · rw [show pyGet (mergeCont cur (a :: rest)) 4 =
            (if pyGet (a :: rest) 4 ≠ "" then
              appendSemi (pyGet cur 4) (pyStrip (pyGet (a :: rest) 4))
             else pyGet cur 4) from rfl, if_pos hcell]
          exact appendSemi_arg_occurs _ _

/-- C2, amended: the Gauhati reconstructor never drops a non-empty advocate
cell (columns 4 and 5) of a start row or of a continuation row that merges
into an open record: its trimmed content occurs in some cell of the written
output. Other content can be dropped: continuation case-number cells with
no `"WITH"`/`"in "` marker, whole rows whose leading cell is non-empty but
non-numeric, and cells beyond the fifth column. -/
theorem claim2_amended (pre post : List (List String)) (row : List String)
    (j : Nat) (out : List (List String))
    (hj : j = 3 ∨ j = 4)
    (hcell : pyGet row j ≠ "")
    (hcase : isStartRowG row = true ∨
      (pyGet row 0 = "" ∧ ∃ st1, gauhatiRun ⟨[gauhatiHeaders], none⟩ pre = some st1 ∧
        st1.current ≠ none))
    (hout : gauhatiClean (pre ++ row :: post) = some out) :
    ∃ r ∈ out, ∃ i, (pyStrip (pyGet row j)).data <:+: (pyGet r i).data := by
  unfold gauhatiClean at hout
  cases hrun : gauhatiRun ⟨[gauhatiHeaders], none⟩ (pre ++ row :: post) with
  | none =>
    rw [hrun] at hout
    exact absurd hout (by simp)
  | some stF =>
    rw [hrun] at hout
    injection hout with hout
    rw [gauhatiRun_append] at hrun
    cases hpre : gauhatiRun ⟨[gauhatiHeaders], none⟩ pre with
    | none =>
      rw [hpre] at hrun
      exact absurd hrun (by simp)
    | some st1 =>
      rw [hpre] at hrun
      simp only [gauhatiRun] at hrun
      cases hstep : gauhatiStep st1 row with
      | none =>
        rw [hstep] at hrun
        exact absurd hrun (by simp)
      | some st2 =>
        rw [hstep] at hrun
        have hlen1 : ∀ c, st1.current = some c → c.length = 5 := by
          refine run_len pre _ st1 hpre ?_
          intro c hc
          exact Option.noConfusion hc
        have hcase' : isStartRowG row = true ∨ (pyGet row 0 = "" ∧ st1.current ≠ none) := by
          rcases hcase with h | ⟨h0, stW, hW, hWc⟩
          · exact Or.inl h
          · refine Or.inr ⟨h0, ?_⟩
            rw [hpre] at hW
            injection hW with hW
            rw [← hW] at hWc
            exact hWc
        have hins := step_insert st1 st2 row j hj hcell hstep hcase'
        have hlen2 := step_len st1 st2 row hstep hlen1
        have hfin := run_appears _ post st2 stF hrun hlen2 hins
        rcases hfin with ⟨r, hr, i, hi⟩ | ⟨c, hc, i, hi⟩
        · refine ⟨r, ?_, i, hi⟩
          rw [← hout]
          exact List.mem_append_left _ hr
        · refine ⟨c, ?_, i, hi⟩
          rw [← hout]
          refine List.mem_append_right _ ?_
          rw [hc]
          simp

/-- C2, witness: the advocate cell `"C"` of a concrete start row occurs in
the written output. -/
theorem claim2_witness :
    ∃ r ∈ [gauhatiHeaders, ["1", "A", "B", "C", ""]], ∃ i,
      (pyStrip (pyGet ["1", "A", "B", "C", ""] 3)).data <:+: (pyGet r i).data :=
  claim2_amended [] [] ["1", "A", "B", "C", ""] 3
    [gauhatiHeaders, ["1", "A", "B", "C", ""]]
    (Or.inl rfl) (by decide) (Or.inl (by decide)) (by decide)

end CourtScraper
